import Mathlib

/-!
A shallow embedding of the CHIP-8 interpreter core of `src/chip8.rs`
(`Chip8::new`, `Chip8::load_rom`, `Chip8::run_cycle`, `Chip8::process_opcode`,
`Chip8::update_timers`, `Chip8::reset_all_keys`).

Conventions of the embedding:
* Machine integers are modelled as `Nat`, with an explicit `% 2 ^ w` wherever
  the source wraps (`u8` arithmetic is `% 256`, `u16` arithmetic is `% 65536`).
* The fixed-size arrays (`memory`, `v`, `stack`, `keyboard`, `display`) are
  modelled as total functions from `Nat`; every access performed on the code
  paths studied here stays inside the source array bounds (the relevant
  theorems carry the corresponding bound hypotheses).
* `rand::random::<u8>()` (the one effect in `process_opcode`) is modelled by an
  explicit oracle argument `rnd` supplied to `process_opcode` and `run_cycle`.
* The fatal `Invalid opcode` branches of the decoder are modelled as
  `Except.error opcode`: the run halts and the diagnostic carries exactly the
  offending instruction word, which is all the source surfaces.
* Bit masks on the instruction word are translated arithmetically:
  `op & 0x000F = op % 16`, `op & 0x00FF = op % 256`, `op & 0x0FFF = op % 4096`,
  `(op >> 8) & 0xF = op / 256 % 16`, `(op >> 4) & 0xF = op / 16 % 16`, and the
  dispatch on `op & 0xF000` is a dispatch on the top nibble `op / 4096`
  (these coincide on 16-bit instruction words).
-/

/-- The 80 bytes of built-in hexadecimal digit sprites (`CHAR_SPRITES`). -/
def charSprites : List Nat :=
  [0xF0, 0x90, 0x90, 0x90, 0xF0,
   0x20, 0x60, 0x20, 0x20, 0x70,
   0xF0, 0x10, 0xF0, 0x80, 0xF0,
   0xF0, 0x10, 0xF0, 0x10, 0xF0,
   0x90, 0x90, 0xF0, 0x10, 0x10,
   0xF0, 0x80, 0xF0, 0x10, 0xF0,
   0xF0, 0x80, 0xF0, 0x90, 0xF0,
   0xF0, 0x10, 0x20, 0x40, 0x40,
   0xF0, 0x90, 0xF0, 0x90, 0xF0,
   0xF0, 0x90, 0xF0, 0x10, 0xF0,
   0xF0, 0x90, 0xF0, 0x90, 0x90,
   0xE0, 0x90, 0xE0, 0x90, 0xE0,
   0xF0, 0x80, 0x80, 0x80, 0xF0,
   0xE0, 0x90, 0x90, 0x90, 0xE0,
   0xF0, 0x80, 0xF0, 0x80, 0xF0,
   0xF0, 0x80, 0xF0, 0x80, 0x80]

/-- The machine state (`struct Chip8`). Array fields are total functions;
the source arrays have sizes 4096 (`memory`), 16 (`v`), 16 (`stack`),
16 (`keyboard`) and 64 * 32 = 2048 (`display`, row-major). -/
structure Chip8 where
  i : Nat
  pc : Nat
  memory : Nat → Nat
  v : Nat → Nat
  stack : Nat → Nat
  sp : Nat
  dt : Nat
  st : Nat
  keyboard : Nat → Bool
  display : Nat → Bool
  is_drawing : Bool

/-- `Chip8::new()`: zeroed state, pc = 0x200, digit sprites preloaded at 0. -/
def Chip8.new : Chip8 where
  i := 0
  pc := 0x200
  memory := fun a => if a < 80 then charSprites.getD a 0 else 0
  v := fun _ => 0
  stack := fun _ => 0
  sp := 0
  dt := 0
  st := 0
  keyboard := fun _ => false
  display := fun _ => false
  is_drawing := false

/-- `Chip8::load_rom`: copy the ROM bytes into memory starting at 0x200. -/
def Chip8.load_rom (s : Chip8) (rom : List Nat) : Chip8 :=
  {s with memory := fun a =>
    if 0x200 ≤ a ∧ a < 0x200 + rom.length then rom.getD (a - 0x200) 0 else s.memory a}

/-- `Chip8::reset_all_keys`: clear all 16 key latches. -/
def Chip8.reset_all_keys (s : Chip8) : Chip8 :=
  {s with keyboard := fun k => if k < 16 then false else s.keyboard k}

/-- The ascending key scan loop of `Fx0A` (`for i in 0..KEYBOARD_SIZE` with
early exit at the first pressed slot): scanning positions `m, m+1, ..., 15`,
return the first pressed slot, or `none` when no slot is pressed. -/
def scanKeys (kb : Nat → Bool) (m : Nat) : Option Nat :=
  if h : m < 16 then
    if kb m then some m else scanKeys kb (m + 1)
  else none
termination_by 16 - m

/-- The sprite bit test of the draw loop: `buffer & (0x80 >> pixel) != 0`
(most significant bit first, so column 0 is the MSB). -/
def bitSet (buf c : Nat) : Prop := buf &&& (128 >>> c) ≠ 0

instance (buf c : Nat) : Decidable (bitSet buf c) :=
  inferInstanceAs (Decidable (buf &&& (128 >>> c) ≠ 0))

/-- The destination index of the draw loop:
`(x + pixel) % DISPLAY_WIDTH + ((y + line) % DISPLAY_HEIGHT) * DISPLAY_WIDTH`. -/
def pixIdx (ox oy rr c : Nat) : Nat :=
  (ox + c) % 64 + ((oy + rr) % 32) * 64

/-- One iteration of the inner draw loop at column `c`: if the sprite bit is
set, record a collision when the destination pixel is lit, and XOR the pixel.
The accumulator is the pair (display, collision flag value of `v[0xF]`). -/
def drawPixel (buf ox oy rr : Nat) (acc : (Nat → Bool) × Nat) (c : Nat) :
    (Nat → Bool) × Nat :=
  if bitSet buf c then
    (Function.update acc.1 (pixIdx ox oy rr c) (xor (acc.1 (pixIdx ox oy rr c)) true),
     if acc.1 (pixIdx ox oy rr c) = true then 1 else acc.2)
  else acc

/-- One iteration of the outer draw loop at row `rr`: fetch the sprite byte
`memory[i + line]` and run the 8-column inner loop. -/
def drawRow (mem : Nat → Nat) (i ox oy : Nat) (acc : (Nat → Bool) × Nat)
    (rr : Nat) : (Nat → Bool) × Nat :=
  (List.range 8).foldl (drawPixel (mem (i + rr)) ox oy rr) acc

/-- The whole `Dxyn` draw loop: `n` rows starting from collision flag 0
(the source resets `v[0xF] = 0` before the loop). -/
def drawSprite (mem : Nat → Nat) (i ox oy n : Nat) (disp : Nat → Bool) :
    (Nat → Bool) × Nat :=
  (List.range n).foldl (drawRow mem i ox oy) (disp, 0)

/-- The `Fx55` loop: `for i in 0..=x { memory[I + i] = v[i] }`. -/
def storeRegs (mem : Nat → Nat) (v : Nat → Nat) (base x : Nat) : Nat → Nat :=
  (List.range (x + 1)).foldl (fun m k => Function.update m (base + k) (v k)) mem

/-- The `Fx65` loop: `for i in 0..=x { v[i] = memory[I + i] }`. -/
def loadRegs (v : Nat → Nat) (mem : Nat → Nat) (base x : Nat) : Nat → Nat :=
  (List.range (x + 1)).foldl (fun w k => Function.update w k (mem (base + k))) v

/-- `Chip8::process_opcode`, branch for branch from the source. `rnd` is the
oracle for `rand::random::<u8>()` (used only by `Cxkk`). The `Except.error`
results are the `Invalid opcode` fatal branches, carrying the offending
instruction word. -/
def Chip8.process_opcode (s : Chip8) (rnd : Nat) (opcode : Nat) : Except Nat Chip8 :=
  -- operand fields, see the header for the mask-to-arithmetic translation
  let x := opcode / 256 % 16
  let y := opcode / 16 % 16
  let kk := opcode % 256
  let nnn := opcode % 4096
  let nibble := opcode % 16
  if opcode / 4096 = 0x0 then
    -- the source dispatches this family on the LOW NIBBLE only
    if nibble = 0x0 then
      -- 00E0 - CLS
      .ok {s with display := fun _ => false, is_drawing := true}
    else if nibble = 0xE then
      -- 00EE - RET
      .ok {s with sp := s.sp - 1, pc := s.stack (s.sp - 1)}
    else
      -- 0nnn - SYS addr, executed as a jump
      .ok {s with pc := nnn}
  else if opcode / 4096 = 0x1 then
    -- 1nnn - JP addr
    .ok {s with pc := nnn}
  else if opcode / 4096 = 0x2 then
    -- 2nnn - CALL addr
    .ok {s with stack := Function.update s.stack s.sp s.pc, sp := s.sp + 1, pc := nnn}
  else if opcode / 4096 = 0x3 then
    -- 3xkk - SE Vx, byte
    .ok (if s.v x = kk then {s with pc := (s.pc + 2) % 65536} else s)
  else if opcode / 4096 = 0x4 then
    -- 4xkk - SNE Vx, byte
    .ok (if s.v x ≠ kk then {s with pc := (s.pc + 2) % 65536} else s)
  else if opcode / 4096 = 0x5 then
    -- 5xy0 - SE Vx, Vy (the low nibble is NOT checked by the source)
    .ok (if s.v x = s.v y then {s with pc := (s.pc + 2) % 65536} else s)
  else if opcode / 4096 = 0x6 then
    -- 6xkk - LD Vx, byte
    .ok {s with v := Function.update s.v x kk}
  else if opcode / 4096 = 0x7 then
    -- 7xkk - ADD Vx, byte (wrapping u8 add)
    .ok {s with v := Function.update s.v x ((s.v x + kk) % 256)}
  else if opcode / 4096 = 0x8 then
    if nibble = 0x0 then
      .ok {s with v := Function.update s.v x (s.v y)}
    else if nibble = 0x1 then
      .ok {s with v := Function.update s.v x (s.v x ||| s.v y)}
    else if nibble = 0x2 then
      .ok {s with v := Function.update s.v x (s.v x &&& s.v y)}
    else if nibble = 0x3 then
      .ok {s with v := Function.update s.v x (s.v x ^^^ s.v y)}
    else if nibble = 0x4 then
      -- 8xy4: the flag write happens BEFORE v[x] and v[y] are re-read for the sum
      let v1 := Function.update s.v 15 (if s.v y > 255 - s.v x then 1 else 0)
      .ok {s with v := Function.update v1 x ((v1 x + v1 y) % 256)}
    else if nibble = 0x5 then
      -- 8xy5: flag first, then wrapping u8 subtraction
      let v1 := Function.update s.v 15 (if s.v x > s.v y then 1 else 0)
      .ok {s with v := Function.update v1 x ((v1 x + 256 - v1 y) % 256)}
    else if nibble = 0x6 then
      -- 8xy6: v[0xF] = v[x] & 1 (LSB), then v[x] >>= 1
      let v1 := Function.update s.v 15 (s.v x % 2)
      .ok {s with v := Function.update v1 x (v1 x / 2)}
    else if nibble = 0x7 then
      -- 8xy7: flag first, then v[x] = v[y] - v[x] (wrapping u8)
      let v1 := Function.update s.v 15 (if s.v y > s.v x then 1 else 0)
      .ok {s with v := Function.update v1 x ((v1 y + 256 - v1 x) % 256)}
    else if nibble = 0xE then
      -- 8xyE: v[0xF] = (v[x] & 0x80) >> 7 (MSB), then v[x] <<= 1 (u8 wrap)
      let v1 := Function.update s.v 15 (s.v x / 128 % 2)
      .ok {s with v := Function.update v1 x (v1 x * 2 % 256)}
    else
      .error opcode
  else if opcode / 4096 = 0x9 then
    -- 9xy0 - SNE Vx, Vy (the low nibble is NOT checked by the source)
    .ok (if s.v x ≠ s.v y then {s with pc := (s.pc + 2) % 65536} else s)
  else if opcode / 4096 = 0xA then
    -- Annn - LD I, addr
    .ok {s with i := nnn}
  else if opcode / 4096 = 0xB then
    -- Bnnn - JP V0, addr (nnn + v[0] ≤ 4095 + 255, no u16 overflow)
    .ok {s with pc := nnn + s.v 0}
  else if opcode / 4096 = 0xC then
    -- Cxkk - RND Vx, byte
    .ok {s with v := Function.update s.v x (rnd &&& kk)}
  else if opcode / 4096 = 0xD then
    -- Dxyn - DRW Vx, Vy, nibble
    let res := drawSprite s.memory s.i (s.v x) (s.v y) nibble s.display
    .ok {s with display := res.1, v := Function.update s.v 15 res.2, is_drawing := true}
  else if opcode / 4096 = 0xE then
    if kk = 0x9E then
      -- Ex9E - SKP Vx
      .ok (if s.keyboard (s.v x) then {s with pc := (s.pc + 2) % 65536} else s)
    else if kk = 0xA1 then
      -- ExA1 - SKNP Vx; when the key IS pressed, all keys are cleared
      .ok (if s.keyboard (s.v x) = false then {s with pc := (s.pc + 2) % 65536}
           else s.reset_all_keys)
    else
      .error opcode
  else if opcode / 4096 = 0xF then
    if kk = 0x07 then
      -- Fx07 - LD Vx, DT
      .ok {s with v := Function.update s.v x s.dt}
    else if kk = 0x0A then
      -- Fx0A - LD Vx, K: blocking key wait via pc rewind (pc -= 2, u16 wrap)
      match scanKeys s.keyboard 0 with
      | some k => .ok (Chip8.reset_all_keys {s with v := Function.update s.v x k})
      | none => .ok {s with pc := (s.pc + 65534) % 65536}
    else if kk = 0x15 then
      -- Fx15 - LD DT, Vx
      .ok {s with dt := s.v x}
    else if kk = 0x18 then
      -- Fx18 - LD ST, Vx
      .ok {s with st := s.v x}
    else if kk = 0x1E then
      -- Fx1E - ADD I, Vx (u16 wrap)
      .ok {s with i := (s.i + s.v x) % 65536}
    else if kk = 0x29 then
      -- Fx29 - LD F, Vx (digit sprites are 5 bytes each)
      .ok {s with i := s.v x * 5}
    else if kk = 0x33 then
      -- Fx33 - BCD of v[x] at I, I+1, I+2
      .ok {s with memory :=
        Function.update (Function.update (Function.update s.memory
          s.i (s.v x / 100)) (s.i + 1) (s.v x / 10 % 10)) (s.i + 2) (s.v x % 10)}
    else if kk = 0x55 then
      -- Fx55 - LD [I], Vx
      .ok {s with memory := storeRegs s.memory s.v s.i x}
    else if kk = 0x65 then
      -- Fx65 - LD Vx, [I]
      .ok {s with v := loadRegs s.v s.memory s.i x}
    else
      .error opcode
  else
    -- unreachable: the top nibble of a Nat divided by 4096 below 16 is covered
    .error opcode

/-- `Chip8::update_timers`: each timer decrements when positive, floored at 0. -/
def Chip8.update_timers (s : Chip8) : Chip8 :=
  {s with dt := if s.dt > 0 then s.dt - 1 else s.dt,
          st := if s.st > 0 then s.st - 1 else s.st}

/-- `Chip8::run_cycle`: fetch the big-endian instruction word at `pc`, advance
`pc` by 2, execute the instruction, then tick both timers. -/
def Chip8.run_cycle (s : Chip8) (rnd : Nat) : Except Nat Chip8 :=
  (Chip8.process_opcode {s with pc := (s.pc + 2) % 65536} rnd
      (s.memory s.pc <<< 8 ||| s.memory (s.pc + 1))).map Chip8.update_timers

/-- An all-zero machine state with `pc = 0x200`, used for concrete runs. -/
def zeroState : Chip8 where
  i := 0
  pc := 0x200
  memory := fun _ => 0
  v := fun _ => 0
  stack := fun _ => 0
  sp := 0
  dt := 0
  st := 0
  keyboard := fun _ => false
  display := fun _ => false
  is_drawing := false

/-- Whether column `c` of the single sprite row `buf` (columns `c < m`) toggles
display index `j`: the source XORs exactly the indices of this form. -/
def rowHit (buf ox oy rr m j : Nat) : Prop :=
  ∃ c, c < m ∧ bitSet buf c ∧ j = pixIdx ox oy rr c

instance (buf ox oy rr m j : Nat) : Decidable (rowHit buf ox oy rr m j) :=
  decidable_of_iff
    (∃ c ∈ List.range m, bitSet buf c ∧ j = pixIdx ox oy rr c)
    (by simp [rowHit, List.mem_range])

/-- Whether some set bit of the single sprite row `buf` lands on a pixel that
is lit in display `d`. -/
def rowCollide (buf ox oy rr m : Nat) (d : Nat → Bool) : Prop :=
  ∃ c, c < m ∧ bitSet buf c ∧ d (pixIdx ox oy rr c) = true

instance (buf ox oy rr m : Nat) (d : Nat → Bool) : Decidable (rowCollide buf ox oy rr m d) :=
  decidable_of_iff
    (∃ c ∈ List.range m, bitSet buf c ∧ d (pixIdx ox oy rr c) = true)
    (by simp [rowCollide, List.mem_range])

/-- Whether some set bit (row `rr < n`, column `c < 8`, MSB first) of the
`n`-byte sprite at `i` maps to display index `j`. -/
def spriteHit (mem : Nat → Nat) (i ox oy n j : Nat) : Prop :=
  ∃ rr, rr < n ∧ rowHit (mem (i + rr)) ox oy rr 8 j

instance (mem : Nat → Nat) (i ox oy n j : Nat) : Decidable (spriteHit mem i ox oy n j) :=
  decidable_of_iff
    (∃ rr ∈ List.range n, rowHit (mem (i + rr)) ox oy rr 8 j)
    (by simp [spriteHit, List.mem_range])

/-- Whether some set bit of the `n`-byte sprite at `i` maps to a pixel that is
lit in display `d` (the draw's collision condition, relative to `d`). -/
def spriteCollide (mem : Nat → Nat) (i ox oy n : Nat) (d : Nat → Bool) : Prop :=
  ∃ rr, rr < n ∧ rowCollide (mem (i + rr)) ox oy rr 8 d

instance (mem : Nat → Nat) (i ox oy n : Nat) (d : Nat → Bool) :
    Decidable (spriteCollide mem i ox oy n d) :=
  decidable_of_iff
    (∃ rr ∈ List.range n, rowCollide (mem (i + rr)) ox oy rr 8 d)
    (by simp [spriteCollide, List.mem_range])

/-- Distinct columns of one sprite row land on distinct display indices
(columns wrap modulo 64 and there are only 8 of them). -/
lemma pixIdx_col_inj {ox oy rr c₁ c₂ : Nat} (hc₁ : c₁ < 64) (hc₂ : c₂ < 64)
    (h : pixIdx ox oy rr c₁ = pixIdx ox oy rr c₂) : c₁ = c₂ := by
  unfold pixIdx at h; omega

/-- Distinct (row, column) pairs of a sprite of at most 32 rows land on
distinct display indices: rows wrap modulo 32, columns modulo 64. -/
lemma pixIdx_inj {ox oy r₁ c₁ r₂ c₂ : Nat} (hr₁ : r₁ < 32) (hr₂ : r₂ < 32)
    (hc₁ : c₁ < 64) (hc₂ : c₂ < 64)
    (h : pixIdx ox oy r₁ c₁ = pixIdx ox oy r₂ c₂) : r₁ = r₂ ∧ c₁ = c₂ := by
  unfold pixIdx at h; omega

/-- Pointwise characterisation of the inner (column) draw loop: after the
first `m ≤ 8` columns, a display index holds its old value XOR whether some
processed set bit maps to it, and the collision flag has been raised exactly
when some processed set bit hit a pixel lit at the start of the row. -/
lemma drawRow_foldl_spec (buf ox oy rr : Nat) (acc : (Nat → Bool) × Nat) :
    ∀ m, m ≤ 8 →
    (∀ j, ((List.range m).foldl (drawPixel buf ox oy rr) acc).1 j =
        xor (acc.1 j) (decide (rowHit buf ox oy rr m j))) ∧
    ((List.range m).foldl (drawPixel buf ox oy rr) acc).2 =
      (if rowCollide buf ox oy rr m acc.1 then 1 else acc.2) := by
  intro m
  induction m with
  | zero =>
    intro _
    constructor
    · intro j
      simp [rowHit]
    · simp [rowCollide]
  | succ m ih =>
    intro hm
    obtain ⟨ih1, ih2⟩ := ih (by omega)
    rw [List.range_succ, List.foldl_append, List.foldl_cons, List.foldl_nil]
    by_cases hb : bitSet buf m
    · have hno : ¬ rowHit buf ox oy rr m (pixIdx ox oy rr m) := by
        rintro ⟨c, hc, _, hpix⟩
        have := pixIdx_col_inj (by omega) (by omega) hpix.symm
        omega
      have hPpix : ((List.range m).foldl (drawPixel buf ox oy rr) acc).1
          (pixIdx ox oy rr m) = acc.1 (pixIdx ox oy rr m) := by
        rw [ih1, decide_eq_false hno, Bool.xor_false]
      constructor
      · intro j
        simp only [drawPixel, if_pos hb]
        by_cases hj : j = pixIdx ox oy rr m
        · subst hj
          rw [Function.update_same, hPpix,
            decide_eq_true (show rowHit buf ox oy rr (m + 1) (pixIdx ox oy rr m)
              from ⟨m, by omega, hb, rfl⟩)]
        · rw [Function.update_noteq hj, ih1]
          have hiff : rowHit buf ox oy rr (m + 1) j ↔ rowHit buf ox oy rr m j := by
            constructor
            · rintro ⟨c, hc, hbc, hj'⟩
              rcases Nat.lt_succ_iff_lt_or_eq.mp hc with h | h
              · exact ⟨c, h, hbc, hj'⟩
              · exact absurd hj' (h ▸ hj)
            · rintro ⟨c, hc, hbc, hj'⟩
              exact ⟨c, by omega, hbc, hj'⟩
          rw [decide_eq_decide.mpr hiff]
      · simp only [drawPixel, if_pos hb]
        rw [hPpix, ih2]
        by_cases hd : acc.1 (pixIdx ox oy rr m) = true
        · rw [if_pos hd, if_pos (show rowCollide buf ox oy rr (m + 1) acc.1
            from ⟨m, by omega, hb, hd⟩)]
        · rw [if_neg hd]
          have hiff : rowCollide buf ox oy rr m acc.1 ↔
              rowCollide buf ox oy rr (m + 1) acc.1 := by
            constructor
            · rintro ⟨c, hc, hbc, hdc⟩
              exact ⟨c, by omega, hbc, hdc⟩
            · rintro ⟨c, hc, hbc, hdc⟩
              rcases Nat.lt_succ_iff_lt_or_eq.mp hc with h | h
              · exact ⟨c, h, hbc, hdc⟩
              · exact absurd hdc (h ▸ hd)
          exact if_congr hiff rfl rfl
    · simp only [drawPixel, if_neg hb]
      have hiff : ∀ j, rowHit buf ox oy rr (m + 1) j ↔ rowHit buf ox oy rr m j := by
        intro j
        constructor
        · rintro ⟨c, hc, hbc, hj'⟩
          rcases Nat.lt_succ_iff_lt_or_eq.mp hc with h | h
          · exact ⟨c, h, hbc, hj'⟩
          · exact absurd hbc (h ▸ hb)
        · rintro ⟨c, hc, hbc, hj'⟩
          exact ⟨c, by omega, hbc, hj'⟩
      constructor
      · intro j
        rw [ih1, decide_eq_decide.mpr (hiff j)]
      · rw [ih2]
        have hiffc : rowCollide buf ox oy rr m acc.1 ↔
            rowCollide buf ox oy rr (m + 1) acc.1 := by
          constructor
          · rintro ⟨c, hc, hbc, hdc⟩
            exact ⟨c, by omega, hbc, hdc⟩
          · rintro ⟨c, hc, hbc, hdc⟩
            rcases Nat.lt_succ_iff_lt_or_eq.mp hc with h | h
            · exact ⟨c, h, hbc, hdc⟩
            · exact absurd hbc (h ▸ hb)
        exact if_congr hiffc rfl rfl

/-- Pointwise characterisation of the whole `Dxyn` draw loop for a sprite of
at most 32 rows: every display index is XOR-toggled exactly when some set bit
of the sprite maps to it, and the final collision flag is 1 exactly when some
set bit maps to a pixel that was lit in the display before the draw. -/
lemma drawSprite_spec (mem : Nat → Nat) (i ox oy : Nat) (d : Nat → Bool) :
    ∀ n, n ≤ 32 →
    (∀ j, (drawSprite mem i ox oy n d).1 j =
        xor (d j) (decide (spriteHit mem i ox oy n j))) ∧
    (drawSprite mem i ox oy n d).2 =
      (if spriteCollide mem i ox oy n d then 1 else 0) := by
  intro n
  unfold drawSprite
  induction n with
  | zero =>
    intro _
    constructor
    · intro j
      simp [spriteHit]
    · simp [spriteCollide]
  | succ n ih =>
    intro hn
    obtain ⟨ih1, ih2⟩ := ih (by omega)
    rw [List.range_succ, List.foldl_append, List.foldl_cons, List.foldl_nil, drawRow]
    obtain ⟨hrow1, hrow2⟩ := drawRow_foldl_spec (mem (i + n)) ox oy n
      ((List.range n).foldl (drawRow mem i ox oy) (d, 0)) 8 le_rfl
    -- a pixel reached by row n is untouched by the earlier rows
    have hfresh : ∀ c, c < 8 →
        ¬ spriteHit mem i ox oy n (pixIdx ox oy n c) := by
      rintro c hc ⟨rr, hrr, c', hc', _, hpix⟩
      have := pixIdx_inj (by omega) (by omega) (by omega) (by omega) hpix.symm
      omega
    have hsplit : ∀ j, spriteHit mem i ox oy (n + 1) j ↔
        (spriteHit mem i ox oy n j ∨ rowHit (mem (i + n)) ox oy n 8 j) := by
      intro j
      constructor
      · rintro ⟨rr, hrr, hrow⟩
        rcases Nat.lt_succ_iff_lt_or_eq.mp hrr with h | h
        · exact .inl ⟨rr, h, hrow⟩
        · exact .inr (h ▸ hrow)
      · rintro (⟨rr, hrr, hrow⟩ | hrow)
        · exact ⟨rr, by omega, hrow⟩
        · exact ⟨n, by omega, hrow⟩
    constructor
    · intro j
      rw [hrow1 j, ih1 j, decide_eq_decide.mpr (hsplit j)]
      by_cases h1 : spriteHit mem i ox oy n j
      · have h2 : ¬ rowHit (mem (i + n)) ox oy n 8 j := by
          rintro ⟨c, hc, _, hj'⟩
          exact hfresh c hc (hj' ▸ h1)
        rw [decide_eq_true h1, decide_eq_false h2,
          decide_eq_true (show spriteHit mem i ox oy n j ∨ _ from .inl h1)]
        simp
      · by_cases h2 : rowHit (mem (i + n)) ox oy n 8 j
        · rw [decide_eq_true h2, decide_eq_false h1,
            decide_eq_true (show _ ∨ rowHit (mem (i + n)) ox oy n 8 j from .inr h2)]
          simp
        · rw [decide_eq_false h1, decide_eq_false h2,
            decide_eq_false (show ¬ (spriteHit mem i ox oy n j ∨
              rowHit (mem (i + n)) ox oy n 8 j) from fun h => h.elim h1 h2)]
          simp
    · rw [hrow2, ih2]
      -- the collision test of row n sees the original display on its pixels
      have hsame : rowCollide (mem (i + n)) ox oy n 8
          ((List.range n).foldl (drawRow mem i ox oy) (d, 0)).1 ↔
          rowCollide (mem (i + n)) ox oy n 8 d := by
        constructor
        · rintro ⟨c, hc, hbc, hdc⟩
          refine ⟨c, hc, hbc, ?_⟩
          rw [ih1, decide_eq_false (hfresh c hc), Bool.xor_false] at hdc
          exact hdc
        · rintro ⟨c, hc, hbc, hdc⟩
          refine ⟨c, hc, hbc, ?_⟩
          rw [ih1, decide_eq_false (hfresh c hc), Bool.xor_false]
          exact hdc
      have hsplitC : spriteCollide mem i ox oy (n + 1) d ↔
          (spriteCollide mem i ox oy n d ∨ rowCollide (mem (i + n)) ox oy n 8 d) := by
        constructor
        · rintro ⟨rr, hrr, hrow⟩
          rcases Nat.lt_succ_iff_lt_or_eq.mp hrr with h | h
          · exact .inl ⟨rr, h, hrow⟩
          · exact .inr (h ▸ hrow)
        · rintro (⟨rr, hrr, hrow⟩ | hrow)
          · exact ⟨rr, by omega, hrow⟩
          · exact ⟨n, by omega, hrow⟩
      rw [if_congr hsame rfl rfl]
      by_cases hrc : rowCollide (mem (i + n)) ox oy n 8 d
      · rw [if_pos hrc, if_pos (hsplitC.mpr (.inr hrc))]
      · rw [if_neg hrc]
        have : spriteCollide mem i ox oy (n + 1) d ↔ spriteCollide mem i ox oy n d := by
          rw [hsplitC]
          exact ⟨fun h => h.elim id (fun h' => absurd h' hrc), .inl⟩
        exact (if_congr this rfl rfl).symm

/-- When no key slot below 16 is pressed, the scan finds nothing (fuel form). -/
lemma scanKeys_none_of_fuel (kb : Nat → Bool) (h : ∀ k, k < 16 → kb k = false) :
    ∀ t m, 16 - m ≤ t → scanKeys kb m = none := by
  intro t
  induction t with
  | zero =>
    intro m hm
    rw [scanKeys, dif_neg (by omega)]
  | succ t ih =>
    intro m hm
    rw [scanKeys]
    by_cases hlt : m < 16
    · rw [dif_pos hlt, h m hlt]
      simpa using ih (m + 1) (by omega)
    · rw [dif_neg hlt]

/-- When no key slot is pressed, the `Fx0A` scan from slot 0 finds nothing. -/
lemma scanKeys_none (kb : Nat → Bool) (h : ∀ k, k < 16 → kb k = false) :
    scanKeys kb 0 = none :=
  scanKeys_none_of_fuel kb h 16 0 (by omega)

/-- The scan starting at `m` returns the least pressed slot `k ≥ m` (fuel form). -/
lemma scanKeys_some_of_fuel (kb : Nat → Bool) (k : Nat) (hk : k < 16)
    (hkb : kb k = true) (hmin : ∀ j, j < k → kb j = false) :
    ∀ t m, k - m ≤ t → m ≤ k → scanKeys kb m = some k := by
  intro t
  induction t with
  | zero =>
    intro m h1 h2
    have hmk : m = k := by omega
    subst hmk
    rw [scanKeys, dif_pos (by omega), if_pos hkb]
  | succ t ih =>
    intro m h1 h2
    by_cases hmk : m = k
    · subst hmk
      rw [scanKeys, dif_pos (by omega), if_pos hkb]
    · rw [scanKeys, dif_pos (by omega), hmin m (by omega)]
      simpa using ih (m + 1) (by omega) (by omega)

/-- The `Fx0A` scan from slot 0 returns the least pressed slot. -/
lemma scanKeys_some (kb : Nat → Bool) (k : Nat) (hk : k < 16)
    (hkb : kb k = true) (hmin : ∀ j, j < k → kb j = false) :
    scanKeys kb 0 = some k :=
  scanKeys_some_of_fuel kb k hk hkb hmin k 0 (by omega) (by omega)

/-- The `Fx55` store loop writes `v[j]` at address `base + j` for `j < x`. -/
lemma store_foldl_get (mem v : Nat → Nat) (base : Nat) :
    ∀ x j, j < x →
    ((List.range x).foldl (fun m k => Function.update m (base + k) (v k)) mem)
        (base + j) = v j := by
  intro x
  induction x with
  | zero => omega
  | succ x ih =>
    intro j hj
    rw [List.range_succ, List.foldl_append, List.foldl_cons, List.foldl_nil]
    by_cases hjx : j = x
    · subst hjx
      rw [Function.update_same]
    · rw [Function.update_noteq (by omega)]
      exact ih j (by omega)

/-- The `Fx55` store loop leaves every address outside `[base, base + x)`
unchanged. -/
lemma store_foldl_get_out (mem v : Nat → Nat) (base : Nat) :
    ∀ x a, (∀ j, j < x → a ≠ base + j) →
    ((List.range x).foldl (fun m k => Function.update m (base + k) (v k)) mem) a
      = mem a := by
  intro x
  induction x with
  | zero =>
    intro a _
    simp
  | succ x ih =>
    intro a ha
    rw [List.range_succ, List.foldl_append, List.foldl_cons, List.foldl_nil,
      Function.update_noteq (ha x (by omega))]
    exact ih a (fun j hj => ha j (by omega))

/-- The `Fx65` load loop sets register `j < x` to `memory[base + j]`. -/
lemma load_foldl_get (v mem : Nat → Nat) (base : Nat) :
    ∀ x j, j < x →
    ((List.range x).foldl (fun w k => Function.update w k (mem (base + k))) v) j
      = mem (base + j) := by
  intro x
  induction x with
  | zero => omega
  | succ x ih =>
    intro j hj
    rw [List.range_succ, List.foldl_append, List.foldl_cons, List.foldl_nil]
    by_cases hjx : j = x
    · subst hjx
      rw [Function.update_same]
    · rw [Function.update_noteq (by omega)]
      exact ih j (by omega)

/-- A byte masked with `kk` has no bit outside `kk`: `(r & kk) & !kk = 0`
with `!kk` the 8-bit complement `255 ^ kk`. -/
lemma masked_and_compl_eq_zero (r kk : Nat) (hkk : kk < 256) :
    (r &&& kk) &&& (255 ^^^ kk) = 0 := by
  apply Nat.eq_of_testBit_eq
  intro b
  rw [Nat.testBit_and, Nat.testBit_and, Nat.testBit_xor, Nat.zero_testBit,
    show (255 : Nat) = 2 ^ 8 - 1 from rfl, Nat.testBit_two_pow_sub_one]
  by_cases hb : b < 8
  · rw [decide_eq_true hb]
    cases hkb : kk.testBit b <;> simp [hkb]
  · rw [Nat.testBit_lt_two_pow (show kk < 2 ^ b by
      calc kk < 256 := hkk
      _ = 2 ^ 8 := rfl
      _ ≤ 2 ^ b := Nat.pow_le_pow_right (by omega) (by omega))]
    simp

/-- C1: for every machine state and every `Dxyn` instruction with
`I + n ≤ 4096`, the executor XOR-toggles exactly the framebuffer pixels
`((V[x] + c) mod 64, (V[y] + r) mod 32)` reached by set sprite bits (MSB
first), the flag register `V[0xF]` ends 1 exactly when some toggled pixel was
lit immediately before its toggle (equivalently, lit before the draw, since no
pixel is toggled twice), every other register is untouched, and the dirty flag
is set even when no pixel changed. -/
theorem claim_C1_dxyn_draw (rnd : Nat) (s : Chip8) (x y n : Nat)
    (hx : x < 16) (hy : y < 16) (hn : n < 16) (hI : s.i + n ≤ 4096) :
    ∃ s', s.process_opcode rnd (0xD000 + 256 * x + 16 * y + n) = .ok s' ∧
      (∀ j, s'.display j =
        xor (s.display j) (decide (spriteHit s.memory s.i (s.v x) (s.v y) n j))) ∧
      s'.v 15 = (if spriteCollide s.memory s.i (s.v x) (s.v y) n s.display
        then 1 else 0) ∧
      (∀ k, k ≠ 15 → s'.v k = s.v k) ∧
      s'.is_drawing = true ∧ s'.pc = s.pc ∧ s'.i = s.i ∧ s'.memory = s.memory ∧
      s'.dt = s.dt ∧ s'.st = s.st := by
  have e1 : (0xD000 + 256 * x + 16 * y + n) / 4096 = 13 := by omega
  have e2 : (0xD000 + 256 * x + 16 * y + n) / 256 % 16 = x := by omega
  have e3 : (0xD000 + 256 * x + 16 * y + n) / 16 % 16 = y := by omega
  have e4 : (0xD000 + 256 * x + 16 * y + n) % 16 = n := by omega
  obtain ⟨hd, hf⟩ := drawSprite_spec s.memory s.i (s.v x) (s.v y) s.display n (by omega)
  refine ⟨{s with
      display := (drawSprite s.memory s.i (s.v x) (s.v y) n s.display).1,
      v := Function.update s.v 15 (drawSprite s.memory s.i (s.v x) (s.v y) n s.display).2,
      is_drawing := true}, ?_, ?_, ?_, ?_, rfl, rfl, rfl, rfl, rfl, rfl⟩
  · simp only [Chip8.process_opcode, e1, e2, e3, e4]
    norm_num
  · exact hd
  · show Function.update s.v 15 (drawSprite s.memory s.i (s.v x) (s.v y) n s.display).2 15 = _
    rw [Function.update_same]
    exact hf
  · intro k hk
    show Function.update s.v 15 (drawSprite s.memory s.i (s.v x) (s.v y) n s.display).2 k = s.v k
    rw [Function.update_noteq hk]

/-- A state whose memory holds the one-row sprite 0xA0 at address 0,
used to instantiate the draw theorem concretely. -/
def drawWitState : Chip8 :=
  {zeroState with memory := fun a => if a = 0 then 0xA0 else 0}

/-- C1 witness: the draw theorem instantiated at a concrete state and the
concrete instruction `D011` (x = 0, y = 1, n = 1), with every hypothesis
discharged by evaluation. -/
theorem claim_C1_witness :
    (0 : Nat) < 16 ∧ (1 : Nat) < 16 ∧ (1 : Nat) < 16 ∧ drawWitState.i + 1 ≤ 4096 ∧
    (∃ s', drawWitState.process_opcode 0 (0xD000 + 256 * 0 + 16 * 1 + 1) = .ok s' ∧
      (∀ j, s'.display j = xor (drawWitState.display j)
        (decide (spriteHit drawWitState.memory drawWitState.i (drawWitState.v 0)
          (drawWitState.v 1) 1 j))) ∧
      s'.v 15 = (if spriteCollide drawWitState.memory drawWitState.i
        (drawWitState.v 0) (drawWitState.v 1) 1 drawWitState.display
        then 1 else 0) ∧
      (∀ k, k ≠ 15 → s'.v k = drawWitState.v k) ∧
      s'.is_drawing = true ∧ s'.pc = drawWitState.pc ∧ s'.i = drawWitState.i ∧
      s'.memory = drawWitState.memory ∧ s'.dt = drawWitState.dt ∧
      s'.st = drawWitState.st) :=
  ⟨by decide, by decide, by decide, by decide,
   claim_C1_dxyn_draw 0 drawWitState 0 1 1 (by decide) (by decide) (by decide)
     (by decide)⟩

/-- C2: `Fx0A` with no key latched rewinds the program counter by exactly 2
(in 16-bit arithmetic) and changes nothing else; with keys latched it stores
the smallest latched key index into register x, clears all 16 key latches,
and leaves the program counter (and every other component except `v[x]` and
the latch) unchanged. -/
theorem claim_C2_fx0a (rnd : Nat) (s : Chip8) (x : Nat) (hx : x < 16) :
    ((∀ k, k < 16 → s.keyboard k = false) →
      s.process_opcode rnd (0xF00A + 256 * x) =
        .ok {s with pc := (s.pc + 65534) % 65536} ∧
      (2 ≤ s.pc → s.pc < 65536 → (s.pc + 65534) % 65536 + 2 = s.pc)) ∧
    (∀ k, k < 16 → s.keyboard k = true → (∀ j, j < k → s.keyboard j = false) →
      ∃ s', s.process_opcode rnd (0xF00A + 256 * x) = .ok s' ∧
        s'.v x = k ∧ (∀ m, m ≠ x → s'.v m = s.v m) ∧
        (∀ m, m < 16 → s'.keyboard m = false) ∧
        s'.pc = s.pc ∧ s'.display = s.display ∧ s'.memory = s.memory ∧
        s'.i = s.i ∧ s'.dt = s.dt ∧ s'.st = s.st ∧ s'.sp = s.sp ∧
        s'.stack = s.stack ∧ s'.is_drawing = s.is_drawing) := by
  have e1 : (0xF00A + 256 * x) / 4096 = 15 := by omega
  have e2 : (0xF00A + 256 * x) / 256 % 16 = x := by omega
  have e3 : (0xF00A + 256 * x) % 256 = 0x0A := by omega
  constructor
  · intro hempty
    constructor
    · simp only [Chip8.process_opcode, e1, e2, e3, scanKeys_none s.keyboard hempty]
      norm_num
    · intro h1 h2
      omega
  · intro k hk hkb hmin
    refine ⟨Chip8.reset_all_keys {s with v := Function.update s.v x k},
      ?_, ?_, ?_, ?_, rfl, rfl, rfl, rfl, rfl, rfl, rfl, rfl, rfl⟩
    · simp only [Chip8.process_opcode, e1, e2, e3,
        scanKeys_some s.keyboard k hk hkb hmin]
      norm_num
    · show Function.update s.v x k x = k
      rw [Function.update_same]
    · intro m hm
      show Function.update s.v x k m = s.v m
      rw [Function.update_noteq hm]
    · intro m hm
      show (if m < 16 then false else s.keyboard m) = false
      rw [if_pos hm]

/-- A state with keys 3 and 5 latched, used to instantiate the key-wait
theorem concretely. -/
def keyWitState : Chip8 :=
  {zeroState with keyboard := fun k => k == 3 || k == 5}

/-- C2 witness: the key-wait theorem instantiated on a concrete all-clear
latch (blocking branch, x = 0) and on a concrete latch with keys 3 and 5
pressed (consuming branch, x = 2, smallest key 3). -/
theorem claim_C2_witness :
    ((∀ k, k < 16 → zeroState.keyboard k = false) ∧
      (zeroState.process_opcode 0 (0xF00A + 256 * 0) =
        .ok {zeroState with pc := (zeroState.pc + 65534) % 65536} ∧
      (2 ≤ zeroState.pc → zeroState.pc < 65536 →
        (zeroState.pc + 65534) % 65536 + 2 = zeroState.pc))) ∧
    ((3 : Nat) < 16 ∧ keyWitState.keyboard 3 = true ∧
      (∀ j, j < 3 → keyWitState.keyboard j = false) ∧
      (∃ s', keyWitState.process_opcode 0 (0xF00A + 256 * 2) = .ok s' ∧
        s'.v 2 = 3 ∧ (∀ m, m ≠ 2 → s'.v m = keyWitState.v m) ∧
        (∀ m, m < 16 → s'.keyboard m = false) ∧
        s'.pc = keyWitState.pc ∧ s'.display = keyWitState.display ∧
        s'.memory = keyWitState.memory ∧ s'.i = keyWitState.i ∧
        s'.dt = keyWitState.dt ∧ s'.st = keyWitState.st ∧
        s'.sp = keyWitState.sp ∧ s'.stack = keyWitState.stack ∧
        s'.is_drawing = keyWitState.is_drawing)) :=
  ⟨⟨by decide, (claim_C2_fx0a 0 zeroState 0 (by decide)).1 (by decide)⟩,
   ⟨by decide, by decide, by decide,
    (claim_C2_fx0a 0 keyWitState 2 (by decide)).2 3 (by decide) (by decide)
      (by decide)⟩⟩

/-- C3 counterexample: 0x5011 matches no defined opcode pattern (the only
defined 5-family pattern is `5xy0`), yet execution is not a fatal decode
error: the word is executed exactly like `5010` (skip, since V1 = V0 here),
so the program counter of the all-zero state advances from 0x200 to 0x202. -/
theorem claim_C3_counterexample :
    (zeroState.process_opcode 0 0x5011).isOk = true ∧
    (zeroState.process_opcode 0 0x5011).map (fun t => t.pc) = .ok 0x202 := by
  constructor
  · decide
  · rfl

/-- C3 amended: only the three families with an inner dispatch (top nibbles
0x8, 0xE, 0xF) have undefined low-nibble/low-byte combinations, and exactly
those are fatal decode errors, halting the run and surfacing the offending
instruction word (the diagnostic does not include the program counter).
Words of the form `5xyk`/`9xyk` with `k ≠ 0` execute as `5xy0`/`9xy0`, and
every top nibble is recognized. -/
theorem claim_C3_amended (rnd : Nat) (s : Chip8) (op : Nat)
    (h : (op / 4096 = 8 ∧ op % 16 ≠ 0 ∧ op % 16 ≠ 1 ∧ op % 16 ≠ 2 ∧
          op % 16 ≠ 3 ∧ op % 16 ≠ 4 ∧ op % 16 ≠ 5 ∧ op % 16 ≠ 6 ∧
          op % 16 ≠ 7 ∧ op % 16 ≠ 14) ∨
         (op / 4096 = 14 ∧ op % 256 ≠ 0x9E ∧ op % 256 ≠ 0xA1) ∨
         (op / 4096 = 15 ∧ op % 256 ≠ 0x07 ∧ op % 256 ≠ 0x0A ∧
          op % 256 ≠ 0x15 ∧ op % 256 ≠ 0x18 ∧ op % 256 ≠ 0x1E ∧
          op % 256 ≠ 0x29 ∧ op % 256 ≠ 0x33 ∧ op % 256 ≠ 0x55 ∧
          op % 256 ≠ 0x65)) :
    s.process_opcode rnd op = .error op := by
  rcases h with ⟨ht, h0, h1, h2, h3, h4, h5, h6, h7, hE⟩ |
    ⟨ht, h1, h2⟩ | ⟨ht, h1, h2, h3, h4, h5, h6, h7, h8, h9⟩
  · simp [Chip8.process_opcode, ht, h0, h1, h2, h3, h4, h5, h6, h7, hE]
  · simp [Chip8.process_opcode, ht, h1, h2]
  · simp [Chip8.process_opcode, ht, h1, h2, h3, h4, h5, h6, h7, h8, h9]

/-- C3 witness: the amended decode-error theorem instantiated at the concrete
undefined word 0x800F (8-family, low nibble 0xF is not defined). -/
theorem claim_C3_amended_witness :
    (((0x800F : Nat) / 4096 = 8 ∧ (0x800F : Nat) % 16 ≠ 0 ∧
      (0x800F : Nat) % 16 ≠ 1 ∧ (0x800F : Nat) % 16 ≠ 2 ∧
      (0x800F : Nat) % 16 ≠ 3 ∧ (0x800F : Nat) % 16 ≠ 4 ∧
      (0x800F : Nat) % 16 ≠ 5 ∧ (0x800F : Nat) % 16 ≠ 6 ∧
      (0x800F : Nat) % 16 ≠ 7 ∧ (0x800F : Nat) % 16 ≠ 14) ∨
     ((0x800F : Nat) / 4096 = 14 ∧ (0x800F : Nat) % 256 ≠ 0x9E ∧
      (0x800F : Nat) % 256 ≠ 0xA1) ∨
     ((0x800F : Nat) / 4096 = 15 ∧ (0x800F : Nat) % 256 ≠ 0x07 ∧
      (0x800F : Nat) % 256 ≠ 0x0A ∧ (0x800F : Nat) % 256 ≠ 0x15 ∧
      (0x800F : Nat) % 256 ≠ 0x18 ∧ (0x800F : Nat) % 256 ≠ 0x1E ∧
      (0x800F : Nat) % 256 ≠ 0x29 ∧ (0x800F : Nat) % 256 ≠ 0x33 ∧
      (0x800F : Nat) % 256 ≠ 0x55 ∧ (0x800F : Nat) % 256 ≠ 0x65)) ∧
    zeroState.process_opcode 0 0x800F = .error 0x800F :=
  ⟨by decide, claim_C3_amended 0 zeroState 0x800F (by decide)⟩

/-- C4: loading `[0x60, 0x05, 0x70, 0x03]` into a fresh machine and running
two cycles yields register 0 = 8 and program counter 0x200 + 4; and in
general every cycle fetches the big-endian word at `pc`, advances `pc` by 2
before executing it, and then ticks the timers. -/
theorem claim_C4_two_cycles :
    ((((Chip8.new.load_rom [0x60, 0x05, 0x70, 0x03]).run_cycle 0).bind
        (fun t => t.run_cycle 0)).map (fun t => (t.v 0, t.pc)) =
      .ok (8, 0x200 + 4)) ∧
    (∀ (rnd : Nat) (s : Chip8), s.run_cycle rnd =
      (Chip8.process_opcode {s with pc := (s.pc + 2) % 65536} rnd
        (s.memory s.pc <<< 8 ||| s.memory (s.pc + 1))).map Chip8.update_timers) :=
  ⟨rfl, fun _ _ => rfl⟩

/-- C5 amended: for register indices x, y both distinct from 0xF, `8xy4` sets
register x to `(V[x] + V[y]) mod 256` and the flag register to 1 exactly when
the unwrapped sum exceeds 255 (V[x] a byte, as u8 guarantees); when x = 0xF or
y = 0xF the source writes the flag BEFORE re-reading the operands, so the sum
then uses the flag value instead of the original register. -/
theorem claim_C5_add_carry (rnd : Nat) (s : Chip8) (x y : Nat)
    (hx : x < 16) (hy : y < 16) (hx15 : x ≠ 15) (hy15 : y ≠ 15)
    (hvx : s.v x < 256) (hvy : s.v y < 256) :
    ∃ s', s.process_opcode rnd (0x8000 + 256 * x + 16 * y + 4) = .ok s' ∧
      s'.v x = (s.v x + s.v y) % 256 ∧
      s'.v 15 = (if 255 < s.v x + s.v y then 1 else 0) ∧
      (∀ k, k ≠ x → k ≠ 15 → s'.v k = s.v k) ∧
      s'.pc = s.pc ∧ s'.display = s.display ∧ s'.memory = s.memory ∧
      s'.i = s.i ∧ s'.dt = s.dt ∧ s'.st = s.st := by
  have e1 : (0x8000 + 256 * x + 16 * y + 4) / 4096 = 8 := by omega
  have e2 : (0x8000 + 256 * x + 16 * y + 4) / 256 % 16 = x := by omega
  have e3 : (0x8000 + 256 * x + 16 * y + 4) / 16 % 16 = y := by omega
  have e4 : (0x8000 + 256 * x + 16 * y + 4) % 16 = 4 := by omega
  refine ⟨{s with v := Function.update (Function.update s.v 15 (if s.v y > 255 - s.v x then 1 else 0)) x ((Function.update s.v 15 (if s.v y > 255 - s.v x then 1 else 0) x + Function.update s.v 15 (if s.v y > 255 - s.v x then 1 else 0) y) % 256)}, ?_, ?_, ?_, ?_, rfl, rfl, rfl, rfl, rfl, rfl⟩
  · simp only [Chip8.process_opcode, e1, e2, e3, e4]
    norm_num
    rw [e2, e3]
  · dsimp only
    rw [Function.update_same, Function.update_noteq hx15,
      Function.update_noteq hy15]
  · dsimp only
    rw [Function.update_noteq (Ne.symm hx15), Function.update_same]
    exact if_congr (by omega) rfl rfl
  · intro k hkx hk15
    dsimp only
    rw [Function.update_noteq hkx, Function.update_noteq hk15]

/-- A state with V[0xF] = 10 and every other register 0, showing the
flag/sum interaction of `8xy4` when x = 0xF. -/
def addFWitState : Chip8 :=
  {zeroState with v := fun k => if k = 15 then 10 else 0}

/-- C5 counterexample: `8F04` (x = 0xF, y = 0) at V[0xF] = 10, V[0] = 0. The
claim demands `V[x] = (V[x] + V[y]) mod 256 = 10`, but the source first
overwrites `V[0xF]` with the carry (0) and then re-reads it for the sum, so
the final `V[0xF]` is 0, not 10 (and also not the claimed flag/sum pair). -/
theorem claim_C5_counterexample :
    (addFWitState.process_opcode 0 0x8F04).map (fun t => t.v 15) = .ok 0 ∧
    (addFWitState.v 15 + addFWitState.v 0) % 256 = 10 ∧ (0 : Nat) ≠ 10 :=
  ⟨rfl, by decide, by decide⟩

/-- The spec's concrete scenario for `8xy4`: V[0] = 250, V[1] = 10. -/
def add250State : Chip8 :=
  {zeroState with v := fun k => if k = 0 then 250 else if k = 1 then 10 else 0}

/-- C5 witness: the amended theorem instantiated at the claim's concrete
scenario `8014` with V[0] = 250 and V[1] = 10 (result 4, carry 1). -/
theorem claim_C5_witness :
    (0 : Nat) < 16 ∧ (1 : Nat) < 16 ∧ (0 : Nat) ≠ 15 ∧ (1 : Nat) ≠ 15 ∧
    add250State.v 0 < 256 ∧ add250State.v 1 < 256 ∧
    (∃ s', add250State.process_opcode 0 (0x8000 + 256 * 0 + 16 * 1 + 4) = .ok s' ∧
      s'.v 0 = (add250State.v 0 + add250State.v 1) % 256 ∧
      s'.v 15 = (if 255 < add250State.v 0 + add250State.v 1 then 1 else 0) ∧
      (∀ k, k ≠ 0 → k ≠ 15 → s'.v k = add250State.v k) ∧
      s'.pc = add250State.pc ∧ s'.display = add250State.display ∧
      s'.memory = add250State.memory ∧ s'.i = add250State.i ∧
      s'.dt = add250State.dt ∧ s'.st = add250State.st) :=
  ⟨by decide, by decide, by decide, by decide, by decide, by decide,
   claim_C5_add_carry 0 add250State 0 1 (by decide) (by decide) (by decide)
     (by decide) (by decide) (by decide)⟩

/-- C6 amended: an instruction word with top nibble 0 jumps unconditionally
to nnn with no other state change exactly when its LOW NIBBLE is neither 0x0
nor 0xE; the source dispatches the 0-family on the low nibble alone, so any
`0nn0` (not just 00E0) clears the display and any `0nnE` (not just 00EE)
performs a subroutine return. -/
theorem claim_C6_sys_jump (rnd : Nat) (s : Chip8) (op : Nat)
    (h0 : op / 4096 = 0) (h1 : op % 16 ≠ 0) (h2 : op % 16 ≠ 14) :
    s.process_opcode rnd op = .ok {s with pc := op % 4096} := by
  simp [Chip8.process_opcode, h0, h1, h2]

/-- A state with a fully lit display, showing that `0x0120` clears it. -/
def litState : Chip8 :=
  {zeroState with display := fun _ => true}

/-- C6 counterexample: 0x0120 is of the form `0nnn` and is neither 00E0 nor
00EE, so the claim demands a jump to 0x120; instead the source (dispatching on
the low nibble 0) executes CLS: the program counter stays 0x200, the display
is cleared and the dirty flag set. -/
theorem claim_C6_counterexample :
    (litState.process_opcode 0 0x0120).map
      (fun t => (t.pc, t.display 0, t.is_drawing)) = .ok (0x200, false, true) ∧
    (0x200 : Nat) ≠ 0x120 :=
  ⟨rfl, by decide⟩

/-- C6 witness: the amended jump theorem instantiated at the concrete word
0x0123 (low nibble 3) on the all-zero state. -/
theorem claim_C6_witness :
    ((0x0123 : Nat) / 4096 = 0 ∧ (0x0123 : Nat) % 16 ≠ 0 ∧
      (0x0123 : Nat) % 16 ≠ 14) ∧
    zeroState.process_opcode 0 0x0123 = .ok {zeroState with pc := 0x0123 % 4096} :=
  ⟨by decide, claim_C6_sys_jump 0 zeroState 0x0123 (by decide) (by decide)
    (by decide)⟩

/-- C7: whenever a cycle's instruction executes successfully, `run_cycle`
applies `update_timers` to the post-instruction state (so the tick happens
after the instruction, unconditionally, whatever the instruction was — even
one that just loaded a timer), and `update_timers` decrements each timer by
exactly 1 when positive, leaves it at 0 when zero, and never increases it. -/
theorem claim_C7_timers (rnd : Nat) (s s₁ : Chip8)
    (h : Chip8.process_opcode {s with pc := (s.pc + 2) % 65536} rnd
      (s.memory s.pc <<< 8 ||| s.memory (s.pc + 1)) = .ok s₁) :
    s.run_cycle rnd = .ok s₁.update_timers ∧
    s₁.update_timers.dt = (if s₁.dt > 0 then s₁.dt - 1 else s₁.dt) ∧
    s₁.update_timers.st = (if s₁.st > 0 then s₁.st - 1 else s₁.st) ∧
    (0 < s₁.dt → s₁.update_timers.dt = s₁.dt - 1) ∧
    (s₁.dt = 0 → s₁.update_timers.dt = 0) ∧
    (0 < s₁.st → s₁.update_timers.st = s₁.st - 1) ∧
    (s₁.st = 0 → s₁.update_timers.st = 0) ∧
    s₁.update_timers.dt ≤ s₁.dt ∧ s₁.update_timers.st ≤ s₁.st := by
  refine ⟨?_, rfl, rfl, ?_, ?_, ?_, ?_, ?_, ?_⟩
  · unfold Chip8.run_cycle
    rw [h]
    rfl
  · intro h'
    dsimp only [Chip8.update_timers]
    rw [if_pos h']
  · intro h'
    dsimp only [Chip8.update_timers]
    simp [h']
  · intro h'
    dsimp only [Chip8.update_timers]
    rw [if_pos h']
  · intro h'
    dsimp only [Chip8.update_timers]
    simp [h']
  · dsimp only [Chip8.update_timers]
    split <;> omega
  · dsimp only [Chip8.update_timers]
    split <;> omega

/-- A state whose next instruction is `F015` (load the delay timer from
V[0] = 7) while the delay timer is 3 and the sound timer is 1: the cycle
first executes the load and then ticks, so the delay timer ends at 6. -/
def c7WitState : Chip8 :=
  {zeroState with
    memory := fun a => if a = 0x200 then 0xF0 else if a = 0x201 then 0x15 else 0,
    v := fun k => if k = 0 then 7 else 0, dt := 3, st := 1}

/-- The state of `c7WitState` after fetching, advancing and executing `F015`. -/
def c7WitMid : Chip8 := {c7WitState with pc := 0x202, dt := 7}

/-- C7 witness: the cycle theorem instantiated at a concrete state whose
instruction itself loads the delay timer, with the execution hypothesis
discharged by evaluation. -/
theorem claim_C7_witness :
    Chip8.process_opcode {c7WitState with pc := (c7WitState.pc + 2) % 65536} 0
      (c7WitState.memory c7WitState.pc <<< 8 |||
        c7WitState.memory (c7WitState.pc + 1)) = .ok c7WitMid ∧
    (c7WitState.run_cycle 0 = .ok c7WitMid.update_timers ∧
     c7WitMid.update_timers.dt =
       (if c7WitMid.dt > 0 then c7WitMid.dt - 1 else c7WitMid.dt) ∧
     c7WitMid.update_timers.st =
       (if c7WitMid.st > 0 then c7WitMid.st - 1 else c7WitMid.st) ∧
     (0 < c7WitMid.dt → c7WitMid.update_timers.dt = c7WitMid.dt - 1) ∧
     (c7WitMid.dt = 0 → c7WitMid.update_timers.dt = 0) ∧
     (0 < c7WitMid.st → c7WitMid.update_timers.st = c7WitMid.st - 1) ∧
     (c7WitMid.st = 0 → c7WitMid.update_timers.st = 0) ∧
     c7WitMid.update_timers.dt ≤ c7WitMid.dt ∧
     c7WitMid.update_timers.st ≤ c7WitMid.st) :=
  ⟨rfl, claim_C7_timers 0 c7WitState c7WitMid rfl⟩

/-- C8: `Fx55` stores registers 0..=x at I in ascending order; zeroing those
registers and then executing `Fx65` with the same I restores registers 0..=x
to their original values. -/
theorem claim_C8_store_load_roundtrip (rnd : Nat) (s : Chip8) (x : Nat)
    (hx : x < 16) (hI : s.i + x ≤ 4095) :
    ∃ s₁, s.process_opcode rnd (0xF055 + 256 * x) = .ok s₁ ∧
      s₁.v = s.v ∧ s₁.i = s.i ∧
      (∀ j, j ≤ x →
        (Chip8.process_opcode {s₁ with v := fun k => if k ≤ x then 0 else s₁.v k}
          rnd (0xF065 + 256 * x)).map (fun t => t.v j) = .ok (s.v j)) := by
  have e1 : (0xF055 + 256 * x) / 4096 = 15 := by omega
  have e2 : (0xF055 + 256 * x) / 256 % 16 = x := by omega
  have e3 : (0xF055 + 256 * x) % 256 = 0x55 := by omega
  have f1 : (0xF065 + 256 * x) / 4096 = 15 := by omega
  have f2 : (0xF065 + 256 * x) / 256 % 16 = x := by omega
  have f3 : (0xF065 + 256 * x) % 256 = 0x65 := by omega
  have h1 : s.process_opcode rnd (0xF055 + 256 * x) =
      .ok {s with memory := storeRegs s.memory s.v s.i x} := by
    simp only [Chip8.process_opcode, e1, e2, e3]
    norm_num
  refine ⟨{s with memory := storeRegs s.memory s.v s.i x}, h1, rfl, rfl, ?_⟩
  intro j hj
  simp only [Chip8.process_opcode, f1, f2, f3]
  norm_num
  simp only [Except.map]
  unfold loadRegs
  rw [load_foldl_get _ _ _ (x + 1) j (by omega)]
  exact congrArg Except.ok (by
    unfold storeRegs
    exact store_foldl_get s.memory s.v s.i (x + 1) j (by omega))

/-- A state with I = 100, V[0] = 11, V[1] = 22, for the round-trip witness. -/
def rrState : Chip8 :=
  {zeroState with
    i := 100,
    v := fun k => if k = 0 then 11 else if k = 1 then 22 else 0}

/-- C8 witness: the round-trip theorem instantiated at x = 1 on a concrete
state with I = 100, V[0] = 11, V[1] = 22. -/
theorem claim_C8_witness :
    (1 : Nat) < 16 ∧ rrState.i + 1 ≤ 4095 ∧
    (∃ s₁, rrState.process_opcode 0 (0xF055 + 256 * 1) = .ok s₁ ∧
      s₁.v = rrState.v ∧ s₁.i = rrState.i ∧
      (∀ j, j ≤ 1 →
        (Chip8.process_opcode {s₁ with v := fun k => if k ≤ 1 then 0 else s₁.v k}
          0 (0xF065 + 256 * 1)).map (fun t => t.v j) = .ok (rrState.v j))) :=
  ⟨by decide, by decide,
   claim_C8_store_load_roundtrip 0 rrState 1 (by decide) (by decide)⟩

/-- Executing `Dxyn` is exactly the draw loop: the display and collision flag
come from `drawSprite` on the pre-state, and the dirty flag is set. -/
lemma process_dxyn (rnd : Nat) (s : Chip8) (x y n : Nat)
    (hx : x < 16) (hy : y < 16) (hn : n < 16) :
    s.process_opcode rnd (0xD000 + 256 * x + 16 * y + n) =
      .ok {s with
        display := (drawSprite s.memory s.i (s.v x) (s.v y) n s.display).1,
        v := Function.update s.v 15
          (drawSprite s.memory s.i (s.v x) (s.v y) n s.display).2,
        is_drawing := true} := by
  have e1 : (0xD000 + 256 * x + 16 * y + n) / 4096 = 13 := by omega
  have e2 : (0xD000 + 256 * x + 16 * y + n) / 256 % 16 = x := by omega
  have e3 : (0xD000 + 256 * x + 16 * y + n) / 16 % 16 = y := by omega
  have e4 : (0xD000 + 256 * x + 16 * y + n) % 16 = n := by omega
  simp only [Chip8.process_opcode, e1, e2, e3, e4]
  norm_num

/-- XOR-ing the same bit twice restores the original bit. -/
lemma bool_xor_xor (a b : Bool) : xor (xor a b) b = a := by
  cases a <;> cases b <;> rfl

/-- C9 amended: for `Dxyn` with x, y both distinct from 0xF (so that the
collision-flag write of the first draw does not move the origin of the
second) and `I + n ≤ 4096`, drawing the same sprite twice in succession
restores every pixel of the framebuffer; and when the sprite has at least one
set bit and every pixel its set bits map to was unlit before the first draw,
the flag register is 0 after the first draw and 1 after the second. -/
theorem claim_C9_double_draw (rnd : Nat) (s : Chip8) (x y n : Nat)
    (hx : x < 16) (hy : y < 16) (hx15 : x ≠ 15) (hy15 : y ≠ 15) (hn : n < 16)
    (hI : s.i + n ≤ 4096) :
    ∃ s₁ s₂, s.process_opcode rnd (0xD000 + 256 * x + 16 * y + n) = .ok s₁ ∧
      s₁.process_opcode rnd (0xD000 + 256 * x + 16 * y + n) = .ok s₂ ∧
      (∀ j, s₂.display j = s.display j) ∧
      ((∀ rr c, rr < n → c < 8 → bitSet (s.memory (s.i + rr)) c →
          s.display (pixIdx (s.v x) (s.v y) rr c) = false) →
        (∃ rr, rr < n ∧ ∃ c, c < 8 ∧ bitSet (s.memory (s.i + rr)) c) →
        s₁.v 15 = 0 ∧ s₂.v 15 = 1) := by
  obtain ⟨hd1, hf1⟩ :=
    drawSprite_spec s.memory s.i (s.v x) (s.v y) s.display n (by omega)
  have h1 := process_dxyn rnd s x y n hx hy hn
  have h2 := process_dxyn rnd {s with
    display := (drawSprite s.memory s.i (s.v x) (s.v y) n s.display).1,
    v := Function.update s.v 15
      (drawSprite s.memory s.i (s.v x) (s.v y) n s.display).2,
    is_drawing := true} x y n hx hy hn
  dsimp only at h2
  rw [Function.update_noteq hx15, Function.update_noteq hy15] at h2
  obtain ⟨hd2, hf2⟩ := drawSprite_spec s.memory s.i (s.v x) (s.v y)
    ((drawSprite s.memory s.i (s.v x) (s.v y) n s.display).1) n (by omega)
  refine ⟨_, _, h1, h2, ?_, ?_⟩
  · intro j
    dsimp only
    rw [hd2 j, hd1 j, bool_xor_xor]
  · intro hunlit hbit
    have hno : ¬ spriteCollide s.memory s.i (s.v x) (s.v y) n s.display := by
      rintro ⟨rr, hrr, c, hc, hbc, hdc⟩
      rw [hunlit rr c hrr hc hbc] at hdc
      exact absurd hdc (by simp)
    constructor
    · dsimp only
      rw [Function.update_same, hf1, if_neg hno]
    · dsimp only
      rw [Function.update_same, hf2]
      obtain ⟨rr0, hrr0, c0, hc0, hbc0⟩ := hbit
      have hyes : spriteCollide s.memory s.i (s.v x) (s.v y) n
          (drawSprite s.memory s.i (s.v x) (s.v y) n s.display).1 := by
        refine ⟨rr0, hrr0, c0, hc0, hbc0, ?_⟩
        rw [hd1, hunlit rr0 c0 hrr0 hc0 hbc0,
          decide_eq_true (show spriteHit s.memory s.i (s.v x) (s.v y) n
            (pixIdx (s.v x) (s.v y) rr0 c0) from ⟨rr0, hrr0, c0, hc0, hbc0, rfl⟩)]
        rfl
      rw [if_pos hyes]

/-- A state for the double-draw counterexample: the one-byte sprite 0x80 at
I = 0, V[0xF] = 1 (the origin register), every pixel unlit. -/
def dblWitState : Chip8 :=
  {zeroState with
    memory := fun a => if a = 0 then 0x80 else 0,
    v := fun k => if k = 15 then 1 else 0}

/-- C9 counterexample: `DFF1` (x = y = 0xF, n = 1) on `dblWitState`. The
sprite bytes are disjoint from anything the draw mutates (the draw writes
only the display, `V[0xF]` and the dirty flag), and the single set bit maps
to the unlit pixel (1,1) (index 65). The claim demands that the second
identical draw restore the framebuffer and set the flag to 1; instead the
first draw overwrites `V[0xF]` (= the origin) with 0, so the second draw
toggles pixel (0,0): pixel 65 stays lit (not restored) and the flag ends 0,
not 1. -/
theorem claim_C9_counterexample :
    ((dblWitState.process_opcode 0 0xDFF1).bind
      (fun t => t.process_opcode 0 0xDFF1)).map
        (fun t => (t.display 65, t.v 15)) = .ok (true, 0) ∧
    dblWitState.display 65 = false ∧ (true : Bool) ≠ false ∧ (0 : Nat) ≠ 1 :=
  ⟨rfl, rfl, by decide, by decide⟩

/-- A state for the double-draw witness: the one-byte sprite 0x80 at I = 0,
drawn at origin (V[0], V[1]) = (0, 0) on an unlit display. -/
def dbl2State : Chip8 :=
  {zeroState with memory := fun a => if a = 0 then 0x80 else 0}

/-- C9 witness: the amended double-draw theorem instantiated at `D011`
(x = 0, y = 1, n = 1) on a concrete state with a nonempty sprite and an
unlit display, with every hypothesis discharged by evaluation. -/
theorem claim_C9_witness :
    (0 : Nat) < 16 ∧ (1 : Nat) < 16 ∧ (0 : Nat) ≠ 15 ∧ (1 : Nat) ≠ 15 ∧
    (1 : Nat) < 16 ∧ dbl2State.i + 1 ≤ 4096 ∧
    (∃ s₁ s₂, dbl2State.process_opcode 0 (0xD000 + 256 * 0 + 16 * 1 + 1) = .ok s₁ ∧
      s₁.process_opcode 0 (0xD000 + 256 * 0 + 16 * 1 + 1) = .ok s₂ ∧
      (∀ j, s₂.display j = dbl2State.display j) ∧
      ((∀ rr c, rr < 1 → c < 8 → bitSet (dbl2State.memory (dbl2State.i + rr)) c →
          dbl2State.display (pixIdx (dbl2State.v 0) (dbl2State.v 1) rr c) = false) →
        (∃ rr, rr < 1 ∧ ∃ c, c < 8 ∧ bitSet (dbl2State.memory (dbl2State.i + rr)) c) →
        s₁.v 15 = 0 ∧ s₂.v 15 = 1)) :=
  ⟨by decide, by decide, by decide, by decide, by decide, by decide,
   claim_C9_double_draw 0 dbl2State 0 1 1 (by decide) (by decide) (by decide)
     (by decide) (by decide) (by decide)⟩

/-- C10: `Cxkk` masks the random byte with kk, so with kk = 0 the result is
deterministically 0 (any two draws of the oracle agree, and register x
becomes 0), and in general the written register satisfies
`V[x] AND (NOT kk) = 0`, where NOT kk is the 8-bit complement `255 XOR kk`. -/
theorem claim_C10_rnd_mask (s : Chip8) (x : Nat) (hx : x < 16) :
    (∀ r₁ r₂ : Nat, s.process_opcode r₁ (0xC000 + 256 * x) =
      s.process_opcode r₂ (0xC000 + 256 * x)) ∧
    (∀ r : Nat, (s.process_opcode r (0xC000 + 256 * x)).map (fun t => t.v x) =
      .ok 0) ∧
    (∀ r kk : Nat, kk < 256 →
      ∃ s', s.process_opcode r (0xC000 + 256 * x + kk) = .ok s' ∧
        s'.v x = (r &&& kk) ∧ s'.v x &&& (255 ^^^ kk) = 0) := by
  have e1 : (0xC000 + 256 * x) / 4096 = 12 := by omega
  have e2 : (0xC000 + 256 * x) / 256 % 16 = x := by omega
  have e3 : (0xC000 + 256 * x) % 256 = 0 := by omega
  refine ⟨?_, ?_, ?_⟩
  · intro r₁ r₂
    simp only [Chip8.process_opcode, e1, e2, e3]
    norm_num
  · intro r
    simp only [Chip8.process_opcode, e1, e2, e3]
    norm_num
    simp only [Except.map]
    rw [Function.update_same]
  · intro r kk hkk
    have f1 : (0xC000 + 256 * x + kk) / 4096 = 12 := by omega
    have f2 : (0xC000 + 256 * x + kk) / 256 % 16 = x := by omega
    have f3 : (0xC000 + 256 * x + kk) % 256 = kk := by omega
    refine ⟨{s with v := Function.update s.v x (r &&& kk)}, ?_, ?_, ?_⟩
    · simp only [Chip8.process_opcode, f1, f2, f3]
      norm_num
    · dsimp only
      rw [Function.update_same]
    · dsimp only
      rw [Function.update_same]
      exact masked_and_compl_eq_zero r kk hkk

/-- C10 witness: the randomness theorem instantiated at x = 0 on the all-zero
state. -/
theorem claim_C10_witness :
    (0 : Nat) < 16 ∧
    ((∀ r₁ r₂ : Nat, zeroState.process_opcode r₁ (0xC000 + 256 * 0) =
        zeroState.process_opcode r₂ (0xC000 + 256 * 0)) ∧
    (∀ r : Nat, (zeroState.process_opcode r (0xC000 + 256 * 0)).map
        (fun t => t.v 0) = .ok 0) ∧
    (∀ r kk : Nat, kk < 256 →
      ∃ s', zeroState.process_opcode r (0xC000 + 256 * 0 + kk) = .ok s' ∧
        s'.v 0 = (r &&& kk) ∧ s'.v 0 &&& (255 ^^^ kk) = 0)) :=
  ⟨by decide, claim_C10_rnd_mask zeroState 0 (by decide)⟩
